import Mathlib

/-!
Verification of the tabular data pipeline of `gh-otco-cli`.

The definitions below are a shallow embedding of the Rust sources:
  * `crates/api/src/lib.rs`   — pagination (`get_all_pages_array`)
  * `crates/cli/src/main.rs`  — normalization (`normalize_records`, `render_value`),
    projection/sorting (`output_array_with_projection`), and the delimited and
    table renderers (`delimited_to_string`, `table_to_string`).

Machine integers (`u32` page counters) are modelled as `Nat`: the loop in
`get_all_pages_array` never increments `page` past `max_pages`, so no wrap-around
is reachable and the `Nat` model is exact.  Rust `String`s are Lean `String`s;
Rust's byte-wise `str` ordering coincides with Lean's character-lexicographic
ordering on valid UTF-8, which UTF-8 order-preservation guarantees.
-/

/-- `serde_json::Value`.  Numbers are kept as their decimal text
(`serde_json::Number::to_string` renders exactly this text back), matching the
spec's "Number (text-preserving)" raw-item variant. -/
inductive Json where
  | null : Json
  | bool (b : Bool) : Json
  | num (text : String) : Json
  | str (s : String) : Json
  | arr (items : List Json) : Json
  | obj (fields : List (String × Json)) : Json

/-- Hex digit (lower case) used by the JSON control-character escape. -/
def hexDigit (n : Nat) : Char :=
  if n < 10 then Char.ofNat (48 + n) else Char.ofNat (87 + n)

/-- JSON string escaping as `serde_json` performs it: quote, backslash, the
short control escapes, and `\u00XX` for the remaining control characters. -/
def jsonEscapeChar (c : Char) : List Char :=
  if c = '"' then ['\\', '"']
  else if c = '\\' then ['\\', '\\']
  else if c = '\n' then ['\\', 'n']
  else if c = '\t' then ['\\', 't']
  else if c = '\r' then ['\\', 'r']
  else if c = '\x08' then ['\\', 'b']
  else if c = '\x0c' then ['\\', 'f']
  else if c.toNat < 32 then
    ['\\', 'u', '0', '0', hexDigit (c.toNat / 16), hexDigit (c.toNat % 16)]
  else [c]

def jsonEscape (s : String) : String :=
  String.mk (s.data.foldr (fun c acc => jsonEscapeChar c ++ acc) [])

mutual

/-- Compact serialization of a nested value (`serde_json::Value::to_string`),
used by `render_value` only for `Array`/`Object` cells. -/
def jsonCompact : Json → String
  | Json.null => "null"
  | Json.bool b => if b then "true" else "false"
  | Json.num t => t
  | Json.str s => "\"" ++ jsonEscape s ++ "\""
  | Json.arr xs => "[" ++ jsonCompactArr xs ++ "]"
  | Json.obj fs => "\x7b" ++ jsonCompactObj fs ++ "\x7d"

def jsonCompactArr : List Json → String
  | [] => ""
  | [x] => jsonCompact x
  | x :: y :: xs => jsonCompact x ++ "," ++ jsonCompactArr (y :: xs)

def jsonCompactObj : List (String × Json) → String
  | [] => ""
  | [(k, v)] => "\"" ++ jsonEscape k ++ "\":" ++ jsonCompact v
  | (k, v) :: f :: fs =>
      "\"" ++ jsonEscape k ++ "\":" ++ jsonCompact v ++ "," ++ jsonCompactObj (f :: fs)

end

/-- `render_value` from `crates/cli/src/main.rs` (lines 837-845): the cell
rendering rule.  `Null` renders as the empty string, booleans as
`true`/`false`, numbers as their decimal text, strings verbatim, and nested
arrays/objects as their compact serialization. -/
def render_value : Json → String
  | Json.null => ""
  | Json.bool b => if b then "true" else "false"
  | Json.num t => t
  | Json.str s => s
  | v => jsonCompact v

/-- A normalized row: the `BTreeMap<String, String>` of the Rust code, kept as
its ordered (key-sorted) association list.  `normalize_records` below inserts
the keys in (sorted) header order, which is exactly the `BTreeMap` iteration
order. -/
abbrev Row := List (String × String)

/-- The keys a raw item contributes to the header: the keys of an `Object`,
nothing otherwise (`item.as_object()` is `None` for non-objects). -/
def objKeys : Json → List String
  | Json.obj fields => fields.map Prod.fst
  | _ => []

/-- Rust's `String` ordering (byte-wise lexicographic, which on valid UTF-8 is
character-lexicographic), as an executable comparison on the character data. -/
def strLtB (a b : String) : Bool := decide (a.data < b.data)

/-- Insertion of one key into the ordered key set: `BTreeMap::insert` on the
`keys: BTreeMap<String, ()>` accumulator of `normalize_records`. -/
def insertKey (k : String) : List String → List String
  | [] => [k]
  | x :: xs =>
    if strLtB k x then k :: x :: xs
    else if k = x then x :: xs
    else x :: insertKey k xs

/-- The stream of keys the two nested `for` loops of `normalize_records` walk:
every key of every `Object` item, in item order then in each object's stored
key order. -/
def keysSeq (items : List Json) : List String :=
  items.foldl (fun acc it => acc ++ objKeys it) []

/-- The header computed by `normalize_records` (lines 774-782): each key of
each object item is inserted into the ordered `BTreeMap<String, ()>`;
`into_keys` then yields them in sorted order.  `keysSeq` is precisely the key
stream of those two nested loops. -/
def headerOf (items : List Json) : List String :=
  (keysSeq items).foldl (fun acc k => insertKey k acc) []

/-- The cell of item `it` at header key `k`:
`obj.get(k).map(render_value).unwrap_or_default()` where `obj` is
`item.as_object().cloned().unwrap_or_default()`. -/
def cellOf (it : Json) (k : String) : String :=
  match it with
  | Json.obj fields =>
    match fields.lookup k with
    | some v => render_value v
    | none => ""
  | _ => ""

/-- One output row: for each header key in order, the rendered cell (missing
key ⇒ empty string).  The Rust code inserts into a fresh `BTreeMap` keyed by
the (sorted) header keys, so the stored order is the header order. -/
def rowOf (header : List String) (it : Json) : Row :=
  header.map (fun k => (k, cellOf it k))

/-- `normalize_records` (lines 773-794): shared sorted header, one row per
item. -/
def normalize_records (items : List Json) : List Row :=
  let header := headerOf items
  items.map (rowOf header)


/-- Is this raw item a JSON object? (`item.as_object().is_some()`). -/
def isObj : Json → Bool
  | Json.obj _ => true
  | _ => false

/-! ## Pagination (`crates/api/src/lib.rs`, `get_all_pages_array`, lines 91-117) -/

/-- `ApiError` from `crates/api/src/lib.rs`: an HTTP/transport failure or a URL
parse failure. -/
inductive ApiErr where
  | http (msg : String)
  | url (msg : String)

/-- The `loop` of `get_all_pages_array`.  The Rust loop carries a `page`
counter starting at 1 and breaks when the fetched payload is not an array,
when the fetched array is empty, or when `page >= max_pages`; a fetch error
aborts via `?`.  The last condition is encoded structurally: `fuel` stands for
`max_pages - page` (in saturating `Nat` subtraction), so `fuel = 0` at the top
of an iteration is exactly `page >= max_pages`, and the recursive step
(`page + 1`, `fuel - 1`) preserves the encoding.  The first component records
the page numbers actually fetched (one entry per executed `get_json` call, in
order); the second is the function result (`out` or the propagated error). -/
def pagesLoop (fetch : Nat → Except ApiErr Json) :
    Nat → Nat → List Json → List Nat × Except ApiErr (List Json)
  | 0, page, acc =>
    match fetch page with
    | Except.error e => ([page], Except.error e)
    | Except.ok (Json.arr items) => ([page], Except.ok (acc ++ items))
    | Except.ok _ => ([page], Except.ok acc)
  | fuel + 1, page, acc =>
    match fetch page with
    | Except.error e => ([page], Except.error e)
    | Except.ok (Json.arr items) =>
      if items.isEmpty then ([page], Except.ok (acc ++ items))
      else
        let next := pagesLoop fetch fuel (page + 1) (acc ++ items)
        (page :: next.fst, next.snd)
    | Except.ok _ => ([page], Except.ok acc)

/-- `get_all_pages_array`: fetch pages starting at page 1, with
`max_pages.unwrap_or(10)` as the page guard ("guard to avoid accidental huge
fetches").  The per-page size and query parameters are carried opaquely by the
`fetch` collaborator. -/
def get_all_pages_array (fetch : Nat → Except ApiErr Json)
    (max_pages : Option Nat) : Except ApiErr (List Json) :=
  (pagesLoop fetch (max_pages.getD 10 - 1) 1 []).snd

/-- The sequence of page numbers `get_all_pages_array` fetches (its calls to
`get_json`), in order. -/
def fetchCalls (fetch : Nat → Except ApiErr Json) (max_pages : Option Nat) : List Nat :=
  (pagesLoop fetch (max_pages.getD 10 - 1) 1 []).fst

/-- A fetch collaborator whose every page is the non-empty array `[null]`. -/
def constArrFetch : Nat → Except ApiErr Json :=
  fun _ => Except.ok (Json.arr [Json.null])

/-- A fetch collaborator: page 1 is a non-empty array, every later page is a
malformed (non-array) payload. -/
def malformedPage2Fetch : Nat → Except ApiErr Json :=
  fun p => if p = 1 then Except.ok (Json.arr [Json.null]) else Except.ok (Json.obj [])

/-- A fetch collaborator that fails on every page. -/
def alwaysErrFetch : Nat → Except ApiErr Json :=
  fun _ => Except.error (ApiErr.http "boom")

/-- A fetch collaborator: page 1 is a non-empty array, every later page's
fetch fails. -/
def errPage2Fetch : Nat → Except ApiErr Json :=
  fun p => if p = 1 then Except.ok (Json.arr [Json.null]) else Except.error (ApiErr.http "boom")

/-! ## Projection (`output_array_with_projection`, lines 747-756) -/

/-- Rust `str::split(',')`: split at every comma, keeping empty pieces (the
empty string splits into one empty piece). -/
def splitOnChar (d : Char) : List Char → List (List Char)
  | [] => [[]]
  | c :: cs =>
    match splitOnChar d cs with
    | [] => [[]]
    | p :: ps => if c = d then [] :: p :: ps else (c :: p) :: ps

/-- Rust `str::trim`: drop whitespace from both ends. -/
def trimChars (l : List Char) : List Char :=
  ((l.dropWhile Char.isWhitespace).reverse.dropWhile Char.isWhitespace).reverse

/-- The `want` list: `fcsv.split(',').map(trim).filter(non-empty)`. -/
def parseFields (s : String) : List String :=
  ((splitOnChar ',' s.data).map (fun p => String.mk (trimChars p))).filter
    (fun t => !t.data.isEmpty)

/-- The projection step of `output_array_with_projection`: with no `--fields`
option the rows pass through; otherwise each row retains exactly the keys
listed in `want` (`r.retain(|k, _| want.iter().any(|w| w == k))`). -/
def projectRows (fields : Option String) (rows : List Row) : List Row :=
  match fields with
  | none => rows
  | some fcsv =>
    let want := parseFields fcsv
    rows.map (fun r => r.filter (fun kv => want.any (fun w => w == kv.fst)))

/-! ## Sorting (`output_array_with_projection`, lines 757-762) -/

/-- The row comparison `a.get(&key).cmp(&b.get(&key))` of `rows.sort_by`, as a
boolean "less or equal": `None` sorts before `Some`, and present values
compare by the string order. -/
def optLe (a b : Option String) : Bool :=
  match a, b with
  | none, _ => true
  | some _, none => false
  | some x, some y => decide (x ≤ y)

def rowLe (key : String) (a b : Row) : Bool :=
  optLe (a.lookup key) (b.lookup key)

/-- The sort step after the spec string is parsed: a stable ascending sort by
the cell at `key` (Rust `sort_by` is stable; `List.mergeSort` is the stable
sort), followed by a whole-sequence reversal when descending. -/
def sortRows (key : String) (desc : Bool) (rows : List Row) : List Row :=
  let sorted := rows.mergeSort (rowLe key)
  if desc then sorted.reverse else sorted

/-- `s.starts_with('-')`. -/
def isDescSpec (s : String) : Bool :=
  match s.data with
  | c :: _ => c == '-'
  | [] => false

/-- `s.trim_start_matches('-')`: strip all leading dashes. -/
def stripDashes (s : String) : String :=
  String.mk (s.data.dropWhile (fun c => c == '-'))

/-- The whole sort stage: parse the `--sort` specification (leading `-` means
descending) and sort. -/
def applySort (spec : String) (rows : List Row) : List Row :=
  sortRows (stripDashes spec) (isDescSpec spec) rows

/-! ## Delimited rendering (`delimited_to_string`, lines 852-871)

The Rust code delegates the line format to the `csv` crate
(`WriterBuilder::new().delimiter(..)`), whose default quoting style is
`QuoteStyle::Necessary`: a field is quoted when it contains the quote
character, the delimiter, or a line-terminator character — csv-core marks
both `\n` and `\r` as requiring quotes — with embedded quotes doubled; additionally a record that is empty or consists of a
single empty field is written as `""` so that it stays distinguishable from an
empty line.  The row records are `headers.iter().map(|h| row.get(h).cloned()
.unwrap_or_default())` where `headers` are the first row's keys. -/

/-- The csv output format selector of the CLI (`OutputFormat`). -/
inductive OutFormat where
  | json
  | yaml
  | csv
  | psv
  | table

/-- `match fmt { OutputFormat::Csv => b',', _ => b'|' }`. -/
def delimChar : OutFormat → Char
  | OutFormat.csv => ','
  | _ => '|'

/-- Double every embedded quote (csv escaping of a quoted field). -/
def escQuotes : List Char → List Char
  | [] => []
  | c :: cs => if c = '"' then '"' :: '"' :: escQuotes cs else c :: escQuotes cs

/-- `QuoteStyle::Necessary`: quote iff the field contains the delimiter, a
double quote, a newline, or a carriage return (csv-core marks both line
terminator characters as requiring quotes). -/
def needsQuote (d : Char) (f : String) : Bool :=
  f.data.any (fun c => c == d || c == '"' || c == '\n' || c == '\r')

def quoteField (d : Char) (f : String) : String :=
  if needsQuote d f then "\"" ++ String.mk (escQuotes f.data) ++ "\"" else f

/-- One record written by `csv::Writer::write_record` followed by the record
terminator, including the disambiguation of the empty record / lone empty
field as `""`. -/
def recordLine (d : Char) (fields : List String) : String :=
  if fields = [] ∨ fields = [""] then "\"\"" ++ "\n"
  else String.intercalate (String.singleton d) (fields.map (quoteField d)) ++ "\n"

/-- `rows.get(0).map(|r| r.keys()).unwrap_or_default()`: the header line of the
delimited and table renderers is the first row's key list. -/
def headersOf (rows : List Row) : List String :=
  match rows with
  | [] => []
  | r :: _ => r.map Prod.fst

/-- `delimited_to_string`: header record only when `headers` is non-empty,
then one record per row with the cells looked up in header order. -/
def delimited_to_string (rows : List Row) (fmt : OutFormat) : String :=
  let d := delimChar fmt
  let headers := headersOf rows
  (if headers.isEmpty then "" else recordLine d headers)
    ++ String.join (rows.map (fun row =>
        recordLine d (headers.map (fun h => (row.lookup h).getD ""))))

/-- The quoting rule exactly as the claim words it: quote iff the field
contains the delimiter, a double quote, or a newline (no carriage-return
clause). -/
def specNeedsQuote (d : Char) (f : String) : Bool :=
  f.data.any (fun c => c == d || c == '"' || c == '\n')

def specQuoteField (d : Char) (f : String) : String :=
  if specNeedsQuote d f then "\"" ++ String.mk (escQuotes f.data) ++ "\"" else f

/-- A record line following the specification text only: fields joined by the
delimiter, a field quoted exactly when it contains the delimiter, a double
quote, or a newline — no empty-record disambiguation. -/
def specRecordLine (d : Char) (fields : List String) : String :=
  String.intercalate (String.singleton d) (fields.map (specQuoteField d)) ++ "\n"

/-- The delimited renderer exactly as the specification describes it (the
refinement target for the delimited-rendering claim): the header is emitted as
the first line iff at least one row exists, then one line per row, fields in
header order, with the plain quoting rule. -/
def delimitedRenderSpec (rows : List Row) (fmt : OutFormat) : String :=
  let d := delimChar fmt
  let headers := headersOf rows
  (if rows.isEmpty then "" else specRecordLine d headers)
    ++ String.join (rows.map (fun row =>
        specRecordLine d (headers.map (fun h => (row.lookup h).getD ""))))

/-! ## Table rendering (`table_to_string`, lines 873-883)

`table_to_string` hands the header (the first row's keys) and the row values
(in stored, i.e. key, order) to the external `comfy-table` crate with the
`UTF8_FULL` preset.  The crate lays the table out as a pure function of those
cells.  The model below follows the `UTF8_FULL` glyphs: `┌─┬─┐` top border,
`│` outer and `┆` interior column separators on content lines, `╞═╪═╡` under
the header row, `├╌┼╌┤` dashed separators between body rows, and `└─┴─┘`
bottom border.  Column widths are taken as the cell's character count, an
abstraction of comfy-table's unicode display width (exact for single-width
characters and single-line cells). -/

def padCell (w : Nat) (s : String) : String :=
  " " ++ s ++ String.mk (List.replicate (w - s.length) ' ') ++ " "

def borderLine (l m r : String) (fill : Char) (ws : List Nat) : String :=
  l ++ String.intercalate m (ws.map (fun w => String.mk (List.replicate (w + 2) fill)))
    ++ r ++ "\n"

def contentLine (ws : List Nat) (cells : List String) : String :=
  "│" ++ String.intercalate "┆" ((List.zip ws cells).map (fun p => padCell p.fst p.snd))
    ++ "│" ++ "\n"

/-- `table_to_string`: set the header from the first row's keys (only if a
first row exists), add one table row per row with the cells in stored order,
and render the box-drawn table with the `UTF8_FULL` preset glyphs. -/
def table_to_string (rows : List Row) : String :=
  let headerCells := headersOf rows
  let body := rows.map (fun r => r.map Prod.snd)
  let all := (if rows.isEmpty then ([] : List (List String)) else [headerCells]) ++ body
  let ws := all.transpose.map (fun col => col.foldl (fun m s => max m s.length) 0)
  match all with
  | [] => borderLine "┌" "┬" "┐" '─' ws ++ borderLine "└" "┴" "┘" '─' ws
  | first :: rest =>
    borderLine "┌" "┬" "┐" '─' ws ++ contentLine ws first
      ++ (match rest with
          | [] => ""
          | b :: bs =>
            borderLine "╞" "╪" "╡" '═' ws ++ contentLine ws b
              ++ String.join (bs.map (fun r =>
                  borderLine "├" "┼" "┤" '╌' ws ++ contentLine ws r)))
      ++ borderLine "└" "┴" "┘" '─' ws

theorem strLtB_iff {a b : String} : strLtB a b = true ↔ a < b := by
  simp only [strLtB, decide_eq_true_eq]
  rw [String.lt_iff_toList_lt]
  exact Iff.rfl

theorem mem_insertKey {a k : String} : ∀ {l : List String},
    a ∈ insertKey k l ↔ a = k ∨ a ∈ l := by
  intro l
  induction l with
  | nil => simp [insertKey]
  | cons x xs ih =>
    rw [insertKey]
    split_ifs with h1 h2
    · simp only [List.mem_cons]
    · subst h2
      simp only [List.mem_cons]
      tauto
    · simp only [List.mem_cons, ih]
      tauto

theorem pairwise_insertKey {k : String} : ∀ {l : List String},
    l.Pairwise (· < ·) → (insertKey k l).Pairwise (· < ·) := by
  intro l
  induction l with
  | nil =>
    intro _
    simp [insertKey]
  | cons x xs ih =>
    intro hp
    rw [List.pairwise_cons] at hp
    obtain ⟨hx, hxs⟩ := hp
    rw [insertKey]
    split_ifs with h1 h2
    · have hkx : k < x := strLtB_iff.mp h1
      refine List.pairwise_cons.mpr ⟨?_, List.pairwise_cons.mpr ⟨hx, hxs⟩⟩
      intro b hb
      rcases List.mem_cons.mp hb with h | h
      · exact h ▸ hkx
      · exact lt_trans hkx (hx b h)
    · exact List.pairwise_cons.mpr ⟨hx, hxs⟩
    · have hxk : x < k := by
        rcases lt_trichotomy k x with h | h | h
        · exact absurd (strLtB_iff.mpr h) h1
        · exact absurd h h2
        · exact h
      refine List.pairwise_cons.mpr ⟨?_, ih hxs⟩
      intro b hb
      rcases mem_insertKey.mp hb with h | h
      · exact h ▸ hxk
      · exact hx b h

theorem mem_foldl_insert {a : String} : ∀ (ks acc : List String),
    a ∈ ks.foldl (fun acc k => insertKey k acc) acc ↔ a ∈ acc ∨ a ∈ ks := by
  intro ks
  induction ks with
  | nil => simp
  | cons k ks ih =>
    intro acc
    simp only [List.foldl_cons, ih, mem_insertKey, List.mem_cons]
    tauto

theorem pairwise_foldl_insert : ∀ (ks acc : List String),
    acc.Pairwise (· < ·) →
    (ks.foldl (fun acc k => insertKey k acc) acc).Pairwise (· < ·) := by
  intro ks
  induction ks with
  | nil => exact fun acc h => h
  | cons k ks ih =>
    intro acc h
    exact ih _ (pairwise_insertKey h)

theorem headerOf_pairwise (items : List Json) : (headerOf items).Pairwise (· < ·) :=
  pairwise_foldl_insert _ _ List.Pairwise.nil

theorem mem_headerOf {a : String} {items : List Json} :
    a ∈ headerOf items ↔ a ∈ keysSeq items := by
  unfold headerOf
  rw [mem_foldl_insert]
  simp

theorem mem_keysSeq {a : String} : ∀ {items : List Json},
    a ∈ keysSeq items ↔ ∃ it ∈ items, a ∈ objKeys it := by
  have aux : ∀ (items : List Json) (acc : List String),
      a ∈ items.foldl (fun acc it => acc ++ objKeys it) acc ↔
        a ∈ acc ∨ ∃ it ∈ items, a ∈ objKeys it := by
    intro items
    induction items with
    | nil => simp
    | cons it items ih =>
      intro acc
      simp only [List.foldl_cons, ih, List.mem_append, List.mem_cons]
      constructor
      · rintro (⟨h | h⟩ | ⟨j, hj, hja⟩)
        · exact Or.inl h
        · exact Or.inr ⟨it, Or.inl rfl, h⟩
        · exact Or.inr ⟨j, Or.inr hj, hja⟩
      · rintro (h | ⟨j, hj | hj, hja⟩)
        · exact Or.inl (Or.inl h)
        · exact Or.inl (Or.inr (hj ▸ hja))
        · exact Or.inr ⟨j, hj, hja⟩
  intro items
  rw [keysSeq, aux]
  simp

/-- Two strictly sorted lists with the same members are equal. -/
theorem sorted_lt_eq_of_mem_iff {l₁ l₂ : List String}
    (h₁ : l₁.Pairwise (· < ·)) (h₂ : l₂.Pairwise (· < ·))
    (hm : ∀ a, a ∈ l₁ ↔ a ∈ l₂) : l₁ = l₂ := by
  haveI : IsAntisymm String (· < ·) := ⟨fun a b h h' => absurd h' (lt_asymm h)⟩
  have nd₁ : l₁.Nodup := h₁.imp ne_of_lt
  have nd₂ : l₂.Nodup := h₂.imp ne_of_lt
  exact List.eq_of_perm_of_sorted ((List.perm_ext_iff_of_nodup nd₁ nd₂).mpr hm) h₁ h₂


theorem rowOf_keys (header : List String) (it : Json) :
    (rowOf header it).map Prod.fst = header := by
  simp only [rowOf, List.map_map]
  exact List.map_id _

theorem rowOf_nonObj {header : List String} {it : Json} (h : isObj it = false) :
    rowOf header it = header.map (fun k => (k, "")) := by
  cases it <;> simp_all [rowOf, cellOf, isObj]

/-- C1: `normalize` produces a `RecordSet` whose header is the
lexicographically sorted union of the keys of all object items; there is
exactly one row per input item, each row has one cell per header key in header
order, non-object items produce all-empty rows, a key absent from an item's
object yields the empty string, and the concrete two-item scenario normalizes
to header `[a, b, c]` with rows `{a:"1", b:"x", c:""}` and
`{a:"", b:"y", c:"true"}`. -/
theorem C1_normalize_shape (items : List Json) :
    (headerOf items).Pairwise (· < ·)
    ∧ (∀ k, k ∈ headerOf items ↔ ∃ it ∈ items, k ∈ objKeys it)
    ∧ (normalize_records items).length = items.length
    ∧ (∀ r ∈ normalize_records items, r.map Prod.fst = headerOf items)
    ∧ (∀ it ∈ items, isObj it = false →
        rowOf (headerOf items) it = (headerOf items).map (fun k => (k, "")))
    ∧ (∀ fields k, Json.obj fields ∈ items → k ∈ headerOf items →
        fields.lookup k = none → (k, "") ∈ rowOf (headerOf items) (Json.obj fields))
    ∧ normalize_records
        [Json.obj [("a", Json.num "1"), ("b", Json.str "x")],
         Json.obj [("b", Json.str "y"), ("c", Json.bool true)]] =
      [[("a", "1"), ("b", "x"), ("c", "")], [("a", ""), ("b", "y"), ("c", "true")]] := by
  refine ⟨headerOf_pairwise items, ?_, ?_, ?_, ?_, ?_, by decide⟩
  · intro k
    rw [mem_headerOf, mem_keysSeq]
  · simp [normalize_records]
  · intro r hr
    simp only [normalize_records, List.mem_map] at hr
    obtain ⟨it, _, rfl⟩ := hr
    exact rowOf_keys _ it
  · intro it _ h
    exact rowOf_nonObj h
  · intro fields k _ hk hnone
    simp only [rowOf, List.mem_map]
    exact ⟨k, hk, by simp [cellOf, hnone]⟩

/-- Witness for C1 at the concrete two-item scenario of the claim. -/
theorem C1_normalize_shape_witness :
    normalize_records
        [Json.obj [("a", Json.num "1"), ("b", Json.str "x")],
         Json.obj [("b", Json.str "y"), ("c", Json.bool true)]] =
      [[("a", "1"), ("b", "x"), ("c", "")], [("a", ""), ("b", "y"), ("c", "true")]]
    ∧ "a" ∈ headerOf
        [Json.obj [("a", Json.num "1"), ("b", Json.str "x")],
         Json.obj [("b", Json.str "y"), ("c", Json.bool true)]] := by
  refine ⟨(C1_normalize_shape []).2.2.2.2.2.2, ?_⟩
  exact ((C1_normalize_shape
      [Json.obj [("a", Json.num "1"), ("b", Json.str "x")],
       Json.obj [("b", Json.str "y"), ("c", Json.bool true)]]).2.1 "a").mpr
    ⟨Json.obj [("a", Json.num "1"), ("b", Json.str "x")], List.mem_cons_self _ _, by decide⟩

/-- C7: rendering and normalization are deterministic — the renderers and the
normalizer are pure functions of the `RecordSet` (two runs on identical input
produce byte-identical output), the header order is the canonical sorted
order, and the header depends only on the multiset of observed keys (so no
hash-based iteration order can influence it). -/
theorem C7_deterministic :
    (∀ rows fmt, delimited_to_string rows fmt = delimited_to_string rows fmt)
    ∧ (∀ rows, table_to_string rows = table_to_string rows)
    ∧ (∀ items, normalize_records items = normalize_records items)
    ∧ (∀ items, (headerOf items).Pairwise (· < ·))
    ∧ (∀ items₁ items₂, List.Perm (keysSeq items₁) (keysSeq items₂) →
        headerOf items₁ = headerOf items₂) := by
  refine ⟨fun _ _ => rfl, fun _ => rfl, fun _ => rfl, headerOf_pairwise, ?_⟩
  intro items₁ items₂ hperm
  refine sorted_lt_eq_of_mem_iff (headerOf_pairwise _) (headerOf_pairwise _) ?_
  intro a
  rw [mem_headerOf, mem_headerOf]
  exact hperm.mem_iff

/-- Witness for C7: two items listing the same keys in different stored order
produce the same header. -/
theorem C7_deterministic_witness :
    headerOf [Json.obj [("b", Json.null), ("a", Json.null)]]
      = headerOf [Json.obj [("a", Json.null), ("b", Json.null)]] :=
  C7_deterministic.2.2.2.2 _ _ (by decide)

theorem pagesLoop_calls_length (fetch : Nat → Except ApiErr Json) :
    ∀ (fuel page : Nat) (acc : List Json),
      ((pagesLoop fetch fuel page acc).fst).length ≤ fuel + 1 := by
  intro fuel
  induction fuel with
  | zero =>
    intro page acc
    rcases h : fetch page with e | j
    · simp [pagesLoop, h]
    · cases j <;> simp [pagesLoop, h]
  | succ n ih =>
    intro page acc
    rcases h : fetch page with e | j
    · simp [pagesLoop, h]
    · cases j with
      | null => simp [pagesLoop, h]
      | bool b => simp [pagesLoop, h]
      | num t => simp [pagesLoop, h]
      | str s => simp [pagesLoop, h]
      | obj fs => simp [pagesLoop, h]
      | arr items =>
        simp only [pagesLoop, h]
        by_cases he : items.isEmpty
        · simp [he]
        · simp only [he, Bool.false_eq_true, if_false, List.length_cons]
          have := ih (page + 1) (acc ++ items)
          omega

theorem pagesLoop_calls_of_nonempty (fetch : Nat → Except ApiErr Json) :
    ∀ (fuel page : Nat) (acc : List Json),
      (∀ p, page ≤ p → p ≤ page + fuel →
        ∃ items, fetch p = Except.ok (Json.arr items) ∧ items ≠ []) →
      (pagesLoop fetch fuel page acc).fst = List.range' page (fuel + 1) := by
  intro fuel
  induction fuel with
  | zero =>
    intro page acc h
    obtain ⟨items, hf, _⟩ := h page le_rfl (by omega)
    simp [pagesLoop, hf, List.range']
  | succ n ih =>
    intro page acc h
    obtain ⟨items, hf, hne⟩ := h page le_rfl (by omega)
    have hie : items.isEmpty = false := by simpa [List.isEmpty_iff] using hne
    simp only [pagesLoop, hf, hie, Bool.false_eq_true, if_false]
    rw [ih (page + 1) (acc ++ items) (fun p h1 h2 => h p (by omega) (by omega))]
    simp [List.range']

theorem pagesLoop_error_source (fetch : Nat → Except ApiErr Json) :
    ∀ (fuel page : Nat) (acc : List Json) (e : ApiErr),
      (pagesLoop fetch fuel page acc).snd = Except.error e →
      ∃ p ∈ (pagesLoop fetch fuel page acc).fst, fetch p = Except.error e := by
  intro fuel
  induction fuel with
  | zero =>
    intro page acc e hres
    rcases h : fetch page with e' | j
    · simp only [pagesLoop, h] at hres ⊢
      have he' : e' = e := by simpa using hres
      exact ⟨page, by simp, by rw [h, he']⟩
    · cases j <;> simp [pagesLoop, h] at hres
  | succ n ih =>
    intro page acc e hres
    rcases h : fetch page with e' | j
    · simp only [pagesLoop, h] at hres ⊢
      have he' : e' = e := by simpa using hres
      exact ⟨page, by simp, by rw [h, he']⟩
    · cases j with
      | null => simp [pagesLoop, h] at hres
      | bool b => simp [pagesLoop, h] at hres
      | num t => simp [pagesLoop, h] at hres
      | str s => simp [pagesLoop, h] at hres
      | obj fs => simp [pagesLoop, h] at hres
      | arr items =>
        by_cases he : items.isEmpty
        · simp [pagesLoop, h, he] at hres
        · simp only [pagesLoop, h, he, Bool.false_eq_true, if_false] at hres ⊢
          obtain ⟨p, hp, hpe⟩ := ih (page + 1) (acc ++ items) e hres
          exact ⟨p, List.mem_cons_of_mem _ hp, hpe⟩

theorem pagesLoop_ok_of_no_error (fetch : Nat → Except ApiErr Json)
    (hok : ∀ p e, fetch p ≠ Except.error e) :
    ∀ (fuel page : Nat) (acc : List Json),
      ∃ l, (pagesLoop fetch fuel page acc).snd = Except.ok l := by
  intro fuel
  induction fuel with
  | zero =>
    intro page acc
    rcases h : fetch page with e' | j
    · exact absurd h (hok page e')
    · cases j <;> simp [pagesLoop, h]
  | succ n ih =>
    intro page acc
    rcases h : fetch page with e' | j
    · exact absurd h (hok page e')
    · cases j with
      | null => simp [pagesLoop, h]
      | bool b => simp [pagesLoop, h]
      | num t => simp [pagesLoop, h]
      | str s => simp [pagesLoop, h]
      | obj fs => simp [pagesLoop, h]
      | arr items =>
        by_cases he : items.isEmpty
        · simp [pagesLoop, h, he]
        · simp only [pagesLoop, h, he, Bool.false_eq_true, if_false]
          exact ih (page + 1) (acc ++ items)

/-- C2 counterexample: a fetch collaborator whose every page is a non-empty
array, called with `max_pages = none` (the caller requests no finite maximum),
stops after page 10 and never requests page 11 — the `None` guard is not
unbounded. -/
theorem C2_counterexample_ten_page_stop :
    fetchCalls constArrFetch none = [1, 2, 3, 4, 5, 6, 7, 8, 9, 10]
    ∧ 11 ∉ fetchCalls constArrFetch none
    ∧ get_all_pages_array constArrFetch none =
        Except.ok (List.replicate 10 Json.null) := by
  refine ⟨by decide, by decide, rfl⟩

/-- C2 amended: the code has no `Unbounded` guard variant; an absent
`max_pages` defaults to 10 (`max_pages.unwrap_or(10)`).  With `max_pages =
none` and every one of the first ten pages a non-empty array, the paginator
fetches exactly pages 1 through 10 and stops, rather than continuing until an
empty page. -/
theorem C2_none_guard_is_ten_pages :
    ∀ fetch : Nat → Except ApiErr Json,
      (∀ p, 1 ≤ p → p ≤ 10 →
        ∃ items, fetch p = Except.ok (Json.arr items) ∧ items ≠ []) →
      fetchCalls fetch none = [1, 2, 3, 4, 5, 6, 7, 8, 9, 10] := by
  intro fetch h
  have hc := pagesLoop_calls_of_nonempty fetch 9 1 []
    (fun p h1 h2 => h p h1 (by omega))
  show (pagesLoop fetch 9 1 []).fst = _
  rw [hc]
  decide

/-- Witness for C2 (amended) at the constant non-empty fetch collaborator. -/
theorem C2_none_guard_is_ten_pages_witness :
    fetchCalls constArrFetch none = [1, 2, 3, 4, 5, 6, 7, 8, 9, 10] :=
  C2_none_guard_is_ten_pages constArrFetch
    (fun _ _ _ => ⟨[Json.null], rfl, by simp⟩)

/-- C3 counterexample: page 1 returns one item, page 2 returns a malformed
(non-array) payload, yet `get_all_pages_array` neither aborts nor errors — it
returns the partially accumulated page-1 items as a success. -/
theorem C3_counterexample_partial_on_malformed :
    malformedPage2Fetch 2 = Except.ok (Json.obj [])
    ∧ 2 ∈ fetchCalls malformedPage2Fetch (some 5)
    ∧ get_all_pages_array malformedPage2Fetch (some 5) = Except.ok [Json.null] :=
  ⟨rfl, by decide, rfl⟩

theorem pagesLoop_error_at (fetch : Nat → Except ApiErr Json) :
    ∀ (fuel page : Nat) (acc : List Json) (k : Nat) (e : ApiErr),
      page ≤ k → k ≤ page + fuel →
      (∀ p, page ≤ p → p < k →
        ∃ items, fetch p = Except.ok (Json.arr items) ∧ items ≠ []) →
      fetch k = Except.error e →
      pagesLoop fetch fuel page acc
        = (List.range' page (k - page + 1), Except.error e) := by
  intro fuel
  induction fuel with
  | zero =>
    intro page acc k e hk1 hk2 _ herr
    have hkp : k = page := by omega
    subst hkp
    simp [pagesLoop, herr, List.range', Nat.sub_self]
  | succ n ih =>
    intro page acc k e hk1 _ hp herr
    by_cases hkp : k = page
    · subst hkp
      simp [pagesLoop, herr, List.range', Nat.sub_self]
    · have hlt : page < k := lt_of_le_of_ne hk1 (Ne.symm hkp)
      obtain ⟨items, hf, hne⟩ := hp page le_rfl hlt
      have hie : items.isEmpty = false := by simpa [List.isEmpty_iff] using hne
      simp only [pagesLoop, hf, hie, Bool.false_eq_true, if_false]
      rw [ih (page + 1) (acc ++ items) k e (by omega) (by omega)
        (fun p h1 h2 => hp p (by omega) h2) herr]
      have harith : k - page + 1 = (k - (page + 1) + 1) + 1 := by omega
      rw [harith]
      rfl

/-- C3 amended, part 1 (abort on fetch failure): if the loop reaches page `k`
(every earlier page returned a non-empty array and `k` is within the guard)
and page `k`'s fetch fails, then the whole call returns exactly that first
fetch error — verbatim, carrying no partial items — and page `k` is the last
page ever requested (the call aborts immediately: the fetched pages are
exactly `1..k`).  Part 2 (converse): an error result always originates,
verbatim, from some requested page's fetch.  Part 3 (malformed payloads are
not errors): if no fetch fails the call always succeeds, silently keeping the
items accumulated before any malformed (non-array) page. -/
theorem C3_first_error_or_silent_stop :
    (∀ (fetch : Nat → Except ApiErr Json) (mp : Option Nat) (k : Nat) (e : ApiErr),
        1 ≤ k → k ≤ max 1 (mp.getD 10) →
        (∀ p, 1 ≤ p → p < k →
          ∃ items, fetch p = Except.ok (Json.arr items) ∧ items ≠ []) →
        fetch k = Except.error e →
        get_all_pages_array fetch mp = Except.error e
          ∧ fetchCalls fetch mp = List.range' 1 k)
    ∧ (∀ (fetch : Nat → Except ApiErr Json) (mp : Option Nat) (e : ApiErr),
        get_all_pages_array fetch mp = Except.error e →
        ∃ p ∈ fetchCalls fetch mp, fetch p = Except.error e)
    ∧ (∀ (fetch : Nat → Except ApiErr Json) (mp : Option Nat),
        (∀ p e, fetch p ≠ Except.error e) →
        ∃ l, get_all_pages_array fetch mp = Except.ok l) := by
  refine ⟨?_, ?_, ?_⟩
  · intro fetch mp k e hk1 hk2 hpages herr
    have hfuel : k ≤ 1 + (mp.getD 10 - 1) := by omega
    have h := pagesLoop_error_at fetch (mp.getD 10 - 1) 1 [] k e hk1 hfuel hpages herr
    have harith : k - 1 + 1 = k := by omega
    constructor
    · show (pagesLoop fetch (mp.getD 10 - 1) 1 []).snd = _
      rw [h]
    · show (pagesLoop fetch (mp.getD 10 - 1) 1 []).fst = _
      rw [h, harith]
  · intro fetch mp e hres
    exact pagesLoop_error_source fetch (mp.getD 10 - 1) 1 [] e hres
  · intro fetch mp hok
    exact pagesLoop_ok_of_no_error fetch hok (mp.getD 10 - 1) 1 []

/-- Witness for C3 (amended): a collaborator failing at page 2 makes the call
abort there with that error and fetch exactly pages 1 and 2; the
always-erroring collaborator's error result originates from a requested page;
and the no-error malformed collaborator yields a success. -/
theorem C3_first_error_or_silent_stop_witness :
    (get_all_pages_array errPage2Fetch (some 5) = Except.error (ApiErr.http "boom")
      ∧ fetchCalls errPage2Fetch (some 5) = List.range' 1 2)
    ∧ (∃ p ∈ fetchCalls alwaysErrFetch (some 5),
        alwaysErrFetch p = Except.error (ApiErr.http "boom"))
    ∧ ∃ l, get_all_pages_array malformedPage2Fetch (some 5) = Except.ok l := by
  refine ⟨?_, ?_, ?_⟩
  · refine C3_first_error_or_silent_stop.1 errPage2Fetch (some 5) 2
      (ApiErr.http "boom") (by omega) (by decide) ?_ rfl
    intro p h1 h2
    have hp : p = 1 := by omega
    subst hp
    exact ⟨[Json.null], rfl, by simp⟩
  · exact C3_first_error_or_silent_stop.2.1 alwaysErrFetch (some 5)
      (ApiErr.http "boom") rfl
  · refine C3_first_error_or_silent_stop.2.2 malformedPage2Fetch (some 5) ?_
    intro p e h
    by_cases hp : p = 1 <;> simp [malformedPage2Fetch, hp] at h

/-- C10 counterexample: with `max_pages = some 0` the loop still fetches page
1 before consulting the guard, so "at most `max_pages` fetch calls" fails at
`max_pages = 0`. -/
theorem C10_counterexample_zero_guard :
    fetchCalls constArrFetch (some 0) = [1]
    ∧ ¬ (fetchCalls constArrFetch (some 0)).length ≤ 0 := by
  refine ⟨by decide, by decide⟩

/-- C10 amended: pagination always terminates within a bounded number of
fetches — for every fetch collaborator, `get_all_pages_array` issues at most
`max (1, max_pages)` page fetches (the guard is only consulted after page 1),
and an absent `max_pages` silently defaults to the 10-page limit. -/
theorem C10_calls_bounded (fetch : Nat → Except ApiErr Json) (mp : Option Nat) :
    (fetchCalls fetch mp).length ≤ max 1 (mp.getD 10) := by
  have h := pagesLoop_calls_length fetch (mp.getD 10 - 1) 1 []
  show ((pagesLoop fetch (mp.getD 10 - 1) 1 []).fst).length ≤ _
  omega

/-- C4 counterexample: a present-but-empty field specification is not the
identity — with `--fields ""` (or `" , "`) the parsed `want` list is empty and
`retain` drops every cell of every row. -/
theorem C4_counterexample_empty_fields :
    parseFields "" = []
    ∧ parseFields " , " = []
    ∧ projectRows (some "") [[("a", "x")]] = [[]]
    ∧ projectRows (some "") [[("a", "x")]] ≠ [[("a", "x")]] := by
  refine ⟨by decide, by decide, by decide, by decide⟩

/-- C4 amended: an absent `--fields` option leaves the `RecordSet` unchanged,
but a present specification whose parsed field list is empty (for example `""`
or `" , "`) is not the identity: it empties every row (every cell is
dropped), keeping only the row count. -/
theorem C4_projection_empty_spec :
    (∀ rows : List Row, projectRows none rows = rows)
    ∧ (∀ (s : String) (rows : List Row), parseFields s = [] →
        projectRows (some s) rows = rows.map (fun _ => ([] : Row))) := by
  constructor
  · intro rows
    rfl
  · intro s rows hs
    simp only [projectRows, hs]
    refine List.map_congr_left ?_
    intro r _
    simp [List.filter_eq_nil_iff]

/-- Witness for C4 (amended) at the concrete one-row record set: the absent
option is the identity, the empty specification empties the row. -/
theorem C4_projection_empty_spec_witness :
    projectRows none [[("a", "x")]] = [[("a", "x")]]
    ∧ projectRows (some "") [[("a", "x")]] = [[("a", "x")]].map (fun _ => ([] : Row)) :=
  ⟨C4_projection_empty_spec.1 _, C4_projection_empty_spec.2 "" _ (by decide)⟩

/-- C8: projection is idempotent — projecting twice with the same field
specification equals projecting once, for every record set and every
specification (absent or present). -/
theorem C8_projection_idempotent (fields : Option String) (rows : List Row) :
    projectRows fields (projectRows fields rows) = projectRows fields rows := by
  cases fields with
  | none => rfl
  | some fcsv =>
    simp only [projectRows, List.map_map]
    refine List.map_congr_left ?_
    intro r _
    simp only [Function.comp_apply, List.filter_filter]
    refine List.filter_congr ?_
    intro kv _
    exact Bool.and_self _

theorem optLe_refl (a : Option String) : optLe a a = true := by
  cases a with
  | none => rfl
  | some x => simp [optLe]

theorem optLe_trans : ∀ a b c : Option String,
    optLe a b = true → optLe b c = true → optLe a c = true := by
  intro a b c hab hbc
  cases a with
  | none => rfl
  | some x =>
    cases b with
    | none => simp [optLe] at hab
    | some y =>
      cases c with
      | none => simp [optLe] at hbc
      | some z =>
        simp only [optLe, decide_eq_true_eq] at hab hbc ⊢
        exact le_trans hab hbc

theorem optLe_total : ∀ a b : Option String, (optLe a b || optLe b a) = true := by
  intro a b
  cases a with
  | none => rfl
  | some x =>
    cases b with
    | none => rfl
    | some y =>
      simp only [optLe, Bool.or_eq_true, decide_eq_true_eq]
      exact le_total x y

theorem rowLe_trans (key : String) : ∀ a b c : Row,
    rowLe key a b = true → rowLe key b c = true → rowLe key a c = true :=
  fun a b c hab hbc => optLe_trans _ _ _ hab hbc

theorem rowLe_total (key : String) : ∀ a b : Row,
    (rowLe key a b || rowLe key b a) = true :=
  fun a b => optLe_total _ _

/-- Stability of the ascending sort: the subsequence of rows whose cell at
`key` is a fixed value is unchanged by `mergeSort (rowLe key)`. -/
theorem mergeSort_filter_ties (key : String) (v : Option String) (rows : List Row) :
    (rows.mergeSort (rowLe key)).filter (fun r => decide (r.lookup key = v))
      = rows.filter (fun r => decide (r.lookup key = v)) := by
  set p : Row → Bool := fun r => decide (r.lookup key = v) with hp
  have hpair : List.Pairwise (fun a b => rowLe key a b = true) (rows.filter p) := by
    refine List.pairwise_of_forall_mem_list ?_
    intro a ha b hb
    have ha' : a.lookup key = v := of_decide_eq_true (List.mem_filter.mp ha).2
    have hb' : b.lookup key = v := of_decide_eq_true (List.mem_filter.mp hb).2
    unfold rowLe
    rw [ha', hb']
    exact optLe_refl v
  have hsub : (rows.filter p).Sublist (rows.mergeSort (rowLe key)) :=
    List.sublist_mergeSort (rowLe_trans key) (rowLe_total key) hpair
      (List.filter_sublist rows)
  have hsub2 : (rows.filter p).Sublist ((rows.mergeSort (rowLe key)).filter p) := by
    have hs := List.Sublist.filter p hsub
    rwa [List.filter_eq_self.mpr (fun a ha => (List.mem_filter.mp ha).2)] at hs
  have hlen : ((rows.mergeSort (rowLe key)).filter p).length = (rows.filter p).length :=
    ((List.mergeSort_perm rows (rowLe key)).filter p).length_eq
  exact (hsub2.eq_of_length hlen.symm).symm

/-- C6: the ascending sort is stable — for every record set, sort key, and
cell value, the rows holding that value at the key appear in the ascending
output in exactly their input order (their filtered subsequence is
unchanged).  A value of `none` covers rows missing the key entirely. -/
theorem C6_ascending_sort_stable (rows : List Row) (key : String) (v : Option String) :
    (sortRows key false rows).filter (fun r => decide (r.lookup key = v))
      = rows.filter (fun r => decide (r.lookup key = v)) := by
  show ((rows.mergeSort (rowLe key))).filter _ = _
  exact mergeSort_filter_ties key v rows

/-- C5: descending sort is exactly the reversal of the ascending stable sort,
and consequently rows tied at the sort key are emitted in reverse of their
original relative order when descending. -/
theorem C5_descending_is_reversed_ascending (rows : List Row) (key : String) :
    sortRows key true rows = (sortRows key false rows).reverse
    ∧ ∀ v : Option String,
        (sortRows key true rows).filter (fun r => decide (r.lookup key = v))
          = (rows.filter (fun r => decide (r.lookup key = v))).reverse := by
  constructor
  · simp [sortRows]
  · intro v
    show ((rows.mergeSort (rowLe key)).reverse).filter _ = _
    rw [List.filter_reverse, mergeSort_filter_ties]

theorem any_quote_no_cr (d : Char) : ∀ l : List Char, '\r' ∉ l →
    (l.any (fun c => c == d || c == '"' || c == '\n' || c == '\r'))
      = (l.any (fun c => c == d || c == '"' || c == '\n')) := by
  intro l
  induction l with
  | nil => intro _; rfl
  | cons c cs ih =>
    intro h
    have hc : (c == '\r') = false := by
      simp only [beq_eq_false_iff_ne]
      intro hr
      exact h (hr ▸ List.mem_cons_self c cs)
    simp only [List.any_cons, hc, Bool.or_false,
      ih (fun hm => h (List.mem_cons_of_mem _ hm))]

theorem quoteField_no_cr {d : Char} {f : String} (h : '\r' ∉ f.data) :
    quoteField d f = specQuoteField d f := by
  unfold quoteField specQuoteField needsQuote specNeedsQuote
  rw [any_quote_no_cr d f.data h]

theorem recordLine_eq_specRecordLine {d : Char} {fields : List String}
    (h1 : fields ≠ []) (h2 : fields ≠ [""])
    (h3 : ∀ f ∈ fields, '\r' ∉ f.data) :
    recordLine d fields = specRecordLine d fields := by
  unfold recordLine specRecordLine
  rw [if_neg (by push_neg; exact ⟨h1, h2⟩)]
  have hmap : fields.map (quoteField d) = fields.map (specQuoteField d) :=
    List.map_congr_left (fun f hf => quoteField_no_cr (h3 f hf))
  rw [hmap]

/-- C9 (amended): the delimited renderer agrees with the specification's
rendering wherever the csv crate's extra rules do not fire — that is, whenever
the first row has at least one column, no record is a lone empty field, and no
header name or cell contains a carriage return — and where they do fire the
behavior is: a first row with zero columns suppresses the header line (the
output is then just one `""` record per row), a record consisting of a single
empty field is written as `""`, and a field containing a carriage return is
quoted just as one containing a newline.  In particular, with delimiter `|`, a
cell containing `|` is quoted and a cell containing no special character is
emitted unquoted. -/
theorem C9_delimited_rendering :
    (∀ (rows : List Row) (fmt : OutFormat),
        (rows = [] ∨ headersOf rows ≠ []) →
        headersOf rows ≠ [""] →
        (∀ hd ∈ headersOf rows, '\r' ∉ hd.data) →
        (∀ row ∈ rows,
          (headersOf rows).map (fun h => (row.lookup h).getD "") ≠ [""]) →
        (∀ row ∈ rows, ∀ hd ∈ headersOf rows,
          '\r' ∉ ((row.lookup hd).getD "").data) →
        delimited_to_string rows fmt = delimitedRenderSpec rows fmt)
    ∧ (∀ (rows : List Row) (fmt : OutFormat), headersOf rows = [] →
        delimited_to_string rows fmt
          = String.join (rows.map (fun _ => "\"\"" ++ "\n")))
    ∧ quoteField '|' "a|b" = "\"a|b\""
    ∧ quoteField '|' "ab" = "ab"
    ∧ quoteField ',' "x\r" = "\"" ++ "x\r" ++ "\""
    ∧ delimited_to_string [[("x", "a|b"), ("y", "c")]] OutFormat.psv
        = "x|y" ++ "\n" ++ "\"a|b\"|c" ++ "\n" := by
  refine ⟨?_, ?_, by decide, by decide, by decide, by decide⟩
  · intro rows fmt h1 h2 hcr1 h3 hcr2
    cases rows with
    | nil => rfl
    | cons r rs =>
      have hh : headersOf (r :: rs) ≠ [] := h1.resolve_left (by simp)
      have hhe : (headersOf (r :: rs)).isEmpty = false := by
        simpa [List.isEmpty_iff] using hh
      simp only [delimited_to_string, delimitedRenderSpec, hhe, Bool.false_eq_true,
        if_false, List.isEmpty_cons]
      have hmap : (r :: rs).map (fun row =>
            recordLine (delimChar fmt) ((headersOf (r :: rs)).map
              (fun h => (row.lookup h).getD "")))
          = (r :: rs).map (fun row =>
            specRecordLine (delimChar fmt) ((headersOf (r :: rs)).map
              (fun h => (row.lookup h).getD ""))) := by
        refine List.map_congr_left ?_
        intro row hrow
        refine recordLine_eq_specRecordLine ?_ (h3 row hrow) ?_
        · simp only [ne_eq, List.map_eq_nil_iff]
          exact hh
        · intro f hf
          simp only [List.mem_map] at hf
          obtain ⟨hd, hhd, rfl⟩ := hf
          exact hcr2 row hrow hd hhd
      rw [hmap, recordLine_eq_specRecordLine hh h2 hcr1]
  · intro rows fmt hh
    have hrec : recordLine (delimChar fmt) ([] : List String) = "\"\"" ++ "\n" := rfl
    simp only [delimited_to_string, hh, List.isEmpty_nil, if_true, List.map_nil, hrec]
    exact String.empty_append _

/-- Witness for C9 (amended) at a concrete two-column record set containing a
pipe character. -/
theorem C9_delimited_rendering_witness :
    delimited_to_string [[("x", "a|b"), ("y", "c")]] OutFormat.psv
      = delimitedRenderSpec [[("x", "a|b"), ("y", "c")]] OutFormat.psv :=
  C9_delimited_rendering.1 [[("x", "a|b"), ("y", "c")]] OutFormat.psv
    (Or.inr (by decide)) (by decide) (by decide) (by decide) (by decide)

/-- C9 counterexample: the original quoting claim fails in two concrete ways.
A row whose only cell is the empty string is written by the code (csv crate)
as `""` to stay distinguishable from an empty line, although it contains no
delimiter, quote, or newline; and a cell containing a bare carriage return is
quoted by the code although the claim's rule would leave it unquoted. -/
theorem C9_counterexample_lone_empty_cell :
    delimited_to_string [[("a", "")]] OutFormat.csv = "a" ++ "\n" ++ "\"\"" ++ "\n"
    ∧ delimitedRenderSpec [[("a", "")]] OutFormat.csv = "a" ++ "\n" ++ "\n"
    ∧ delimited_to_string [[("a", "")]] OutFormat.csv
        ≠ delimitedRenderSpec [[("a", "")]] OutFormat.csv
    ∧ delimited_to_string [[("a", "x\r")]] OutFormat.csv
        = "a" ++ "\n" ++ "\"" ++ "x\r" ++ "\"" ++ "\n"
    ∧ delimitedRenderSpec [[("a", "x\r")]] OutFormat.csv
        = "a" ++ "\n" ++ "x\r" ++ "\n"
    ∧ delimited_to_string [[("a", "x\r")]] OutFormat.csv
        ≠ delimitedRenderSpec [[("a", "x\r")]] OutFormat.csv := by
  refine ⟨by decide, by decide, by decide, by decide, by decide, by decide⟩
